import Mathlib

set_option maxHeartbeats 1000000

/-!
Shallow embedding of the schema migration orchestrator of `pkg/migration`
(`MigrationManager.RunMigrations` in `migrate.go`, together with the
default database storage backend `DefaultDatabaseMigrationStorage`).

Modelling choices:
* Go strings are modelled as `List Char` (`GoStr`); `fmt.Sprintf` calls are
  expanded into the corresponding concatenations.
* The storage backend is a deterministic oracle (`MigrationStorage`): the
  answer of `GetAppliedMigrations` and the error results of the three mark
  operations.  The side effects of a run are captured in an event trace
  (`Event`), and the database-record semantics of the default backend is
  recovered from the trace by `applyEvents`.
* A migration function receives the execution context and returns the log
  lines it appends through `Migration.Log` plus an optional error; the
  package exposes no other mutation of the context to migration functions.
* The distributed lock call `lockProvider.Lock(key, 60)` is modelled by its
  result, a pair `(locked, err)`; `defer lockProvider.Unlock(key)` is the
  final `unlock` event appended on every path after acquisition (its own
  error result is discarded by `defer`, hence not modelled).
* `time.Now()` is modelled by an ambient time string `now`; `slog` calls
  are no-ops and are not modelled.
-/

namespace Aira

/-- Go strings, modelled as lists of characters. -/
abbrev GoStr := List Char

/-- Go `fmt.Sprintf("%s:%s", namespace, name)`: the composite key. -/
def mkKey (ns name : GoStr) : GoStr := ns ++ ':' :: name

/-- Go `strings.Split(s, ":")` (single-character separator). -/
def splitColon : GoStr → List GoStr
  | [] => [[]]
  | c :: rest =>
    if c = ':' then [] :: splitColon rest
    else
      match splitColon rest with
      | [] => [[c]]
      | h :: t => (c :: h) :: t

/-- Go `strings.HasPrefix(s, p)` on char lists: `p` is a prefix of `s`. -/
def startsWith : GoStr → GoStr → Bool
  | _, [] => true
  | [], _ :: _ => false
  | c :: s, p :: ps => if p = c then startsWith s ps else false

/-- Substring test: `sub` occurs contiguously inside `s`. -/
def containsStr : GoStr → GoStr → Bool
  | [], p => startsWith [] p
  | c :: s, p => startsWith (c :: s) p || containsStr s p

/-- Go `strings.Join(elems, "\n")`. -/
def joinNL : List GoStr → GoStr
  | [] => []
  | [s] => s
  | s :: rest => s ++ '\n' :: joinNL rest

/-- The execution context handed to each migration function
(`Migration` in the source; its unexported `storage` field is unreachable
from migration functions and is omitted). -/
structure Migration where
  logStrings : List GoStr

/-- `Migration.Log`: append one (already formatted) line. -/
def Migration.Log (m : Migration) (line : GoStr) : Migration :=
  ⟨m.logStrings ++ [line]⟩

/-- `Migration.LogString`: `strings.Join(m.logStrings, "\n")`. -/
def Migration.LogString (m : Migration) : GoStr := joinNL m.logStrings

/-- A registered migration function: from the context it receives it
produces the list of lines it appends via `Migration.Log` together with an
optional error (rendered by Go `%v` as a string). -/
def MigrationFunc := Migration → List GoStr × Option GoStr

/-- `MigrationItem`: one registration. -/
structure MigrationItem where
  Namespace : GoStr
  Name : GoStr
  Func : MigrationFunc

/-- The storage backend as a deterministic oracle: the value returned by
`GetAppliedMigrations` and the error results of the three mark calls
(`none` = success).  The records written by successful mark calls are
recovered from the run's event trace by `applyEvents`. -/
structure MigrationStorage where
  GetAppliedMigrations : Except GoStr (List GoStr)
  MarkMigrationApplied : GoStr → GoStr → Option GoStr
  MarkMigrationFailed : GoStr → GoStr → GoStr → Option GoStr
  MarkMigrationSkipped : GoStr → GoStr → Option GoStr

/-- Observable actions of one orchestration run, in order. -/
inductive Event where
  | getApplied : Event
  | invoke : GoStr → GoStr → Event
  | markSkipped : GoStr → GoStr → Event
  | markApplied : GoStr → GoStr → Event
  | markFailed : GoStr → GoStr → GoStr → Event
  | unlock : Event
  deriving DecidableEq

/-- Result of `RunMigrations`: the returned error and the event trace. -/
structure RunResult where
  error : Option GoStr
  events : List Event
  deriving DecidableEq

/-- `"Starting migration: %s:%s at %s"`. -/
def startMarker (ns name now : GoStr) : GoStr :=
  "Starting migration: ".toList ++ mkKey ns name ++ " at ".toList ++ now

/-- `"Migration completed: %s:%s at %s"`. -/
def completionMarker (ns name now : GoStr) : GoStr :=
  "Migration completed: ".toList ++ mkKey ns name ++ " at ".toList ++ now

/-- `"Migration failed: %v\nLogs:\n%s"`. -/
def failMsg (e logText : GoStr) : GoStr :=
  "Migration failed: ".toList ++ e ++ "\nLogs:\n".toList ++ logText

/-- Lines 242–249 of `RunMigrations`: the set of namespaces having at least
one history record, collected from the `namespace` component of each
applied key (`strings.Split(key, ":")`, used only when it yields exactly
two parts). -/
def initNamespaces (appliedMigrations : List GoStr) : List GoStr :=
  appliedMigrations.filterMap fun key =>
    match splitColon key with
    | [ns, _] => some ns
    | _ => none

/-- Lines 252–265 of `RunMigrations` (bootstrap pass): for each registered
item whose namespace has no record yet and whose key is not applied, mark
it skipped, add its key to the applied set and its namespace to the
namespaces-with-records set; a failing skip write aborts with a wrapped
error.  Returns the trace of this pass and either the error or the updated
`(appliedSet, namespaceHasRecords)` pair. -/
def bootstrapPass (storage : MigrationStorage) :
    List MigrationItem → List GoStr → List GoStr →
    List Event × Except GoStr (List GoStr × List GoStr)
  | [], appliedSet, nsRecords => ([], .ok (appliedSet, nsRecords))
  | item :: rest, appliedSet, nsRecords =>
    if item.Namespace ∈ nsRecords ∨ mkKey item.Namespace item.Name ∈ appliedSet then
      bootstrapPass storage rest appliedSet nsRecords
    else
      match storage.MarkMigrationSkipped item.Namespace item.Name with
      | some e =>
        ([Event.markSkipped item.Namespace item.Name],
         .error ("failed to mark migration ".toList ++ mkKey item.Namespace item.Name
            ++ " as skipped: ".toList ++ e))
      | none =>
        let r := bootstrapPass storage rest
          (mkKey item.Namespace item.Name :: appliedSet) (item.Namespace :: nsRecords)
        (Event.markSkipped item.Namespace item.Name :: r.1, r.2)

/-- The fresh execution context after the start marker is logged
(lines 274–278 of `RunMigrations`). -/
def startCtx (item : MigrationItem) (now : GoStr) : Migration :=
  Migration.Log ⟨[]⟩ (startMarker item.Namespace item.Name now)

/-- Lines 268–293 of `RunMigrations` (execution pass): for each registered
item whose key is not in the applied set, invoke its function on a fresh
context carrying the start marker.  On function error, build the failure
message, call `MarkMigrationFailed` discarding its result, and abort with
the wrapped migration error.  On success, log the completion marker (the
context is then discarded, as in the source) and call
`MarkMigrationApplied`, aborting with a wrapped error if it fails.  Note
the applied set is never extended inside this pass. -/
def executePass (storage : MigrationStorage) (now : GoStr) :
    List MigrationItem → List GoStr → List Event × Option GoStr
  | [], _ => ([], none)
  | item :: rest, appliedSet =>
    if mkKey item.Namespace item.Name ∈ appliedSet then
      executePass storage now rest appliedSet
    else
      match item.Func (startCtx item now) with
      | (lines, some e) =>
        let ctx : Migration := ⟨(startCtx item now).logStrings ++ lines⟩
        let errorMsg := failMsg e ctx.LogString
        let _ := storage.MarkMigrationFailed item.Namespace item.Name errorMsg
        ([Event.invoke item.Namespace item.Name,
          Event.markFailed item.Namespace item.Name errorMsg],
         some ("migration ".toList ++ mkKey item.Namespace item.Name
            ++ " failed: ".toList ++ e))
      | (lines, none) =>
        let ctx : Migration := ⟨(startCtx item now).logStrings ++ lines⟩
        let _ := ctx.Log (completionMarker item.Namespace item.Name now)
        match storage.MarkMigrationApplied item.Namespace item.Name with
        | some e =>
          ([Event.invoke item.Namespace item.Name,
            Event.markApplied item.Namespace item.Name],
           some ("failed to mark migration ".toList ++ mkKey item.Namespace item.Name
              ++ " as applied: ".toList ++ e))
        | none =>
          let r := executePass storage now rest appliedSet
          (Event.invoke item.Namespace item.Name
            :: Event.markApplied item.Namespace item.Name :: r.1, r.2)

/-- Body of `RunMigrations` after the lock is held (lines 231–295): load
history, build the applied set and the namespaces-with-records set, run the
bootstrap pass, then the execution pass. -/
def runBody (storage : MigrationStorage) (migrations : List MigrationItem)
    (now : GoStr) : List Event × Option GoStr :=
  match storage.GetAppliedMigrations with
  | .error e =>
    ([Event.getApplied], some ("failed to get applied migrations: ".toList ++ e))
  | .ok appliedMigrations =>
    match bootstrapPass storage migrations appliedMigrations
        (initNamespaces appliedMigrations) with
    | (btr, .error e) => (Event.getApplied :: btr, some e)
    | (btr, .ok (appliedSet, _)) =>
      let r := executePass storage now migrations appliedSet
      (Event.getApplied :: btr ++ r.1, r.2)

/-- `MigrationManager.RunMigrations` (lines 216–296).  `lockResult` is the
pair returned by `lockProvider.Lock("migrate_lock", 60)`; the error is
checked first, then the acquired flag.  Once the lock is acquired, the
deferred `Unlock` is the final event on every path. -/
def RunMigrations (lockResult : Bool × Option GoStr) (storage : MigrationStorage)
    (migrations : List MigrationItem) (now : GoStr) : RunResult :=
  match lockResult with
  | (_, some e) => ⟨some ("failed to acquire migration lock: ".toList ++ e), []⟩
  | (false, none) => ⟨some "migration is already running".toList, []⟩
  | (true, none) =>
    let r := runBody storage migrations now
    ⟨r.2, r.1 ++ [Event.unlock]⟩

/-- One row of the `migration_logs` table (`MigrationLog` in the source;
the auto-assigned primary key is omitted, `AppliedAt` is the ambient time
string). -/
structure MigrationLog where
  Migration : GoStr
  Namespace : GoStr
  AppliedAt : GoStr
  Logs : GoStr
  Success : Bool
  deriving DecidableEq

/-- `DefaultDatabaseMigrationStorage.GetAppliedMigrations` (lines 50–68):
the composite keys of all rows with `success = true`. -/
def successKeys (recs : List MigrationLog) : List GoStr :=
  (recs.filter fun r => r.Success).map fun r => mkKey r.Namespace r.Migration

/-- The default database backend over a given table state, with no
infrastructure failures: `GetAppliedMigrations` answers the success keys,
all mark calls succeed (each `Create` appends one row, recovered from the
trace by `applyEvents`). -/
def dbStorage (recs : List MigrationLog) : MigrationStorage :=
  ⟨.ok (successKeys recs), fun _ _ => none, fun _ _ _ => none, fun _ _ => none⟩

/-- The row appended by each successful mark call of the default backend
(lines 70–116): `MarkMigrationSkipped` writes `success = true, logs =
"skip"`, `MarkMigrationApplied` writes `success = true, logs = ""`,
`MarkMigrationFailed` writes `success = false, logs = errorMsg`. -/
def recordOfEvent (now : GoStr) : Event → Option MigrationLog
  | .markSkipped ns name => some ⟨name, ns, now, "skip".toList, true⟩
  | .markApplied ns name => some ⟨name, ns, now, [], true⟩
  | .markFailed ns name msg => some ⟨name, ns, now, msg, false⟩
  | _ => none

/-- Table state after a run: the rows appended by the run's mark calls. -/
def applyEvents (now : GoStr) (recs : List MigrationLog) (tr : List Event) :
    List MigrationLog :=
  recs ++ tr.filterMap (recordOfEvent now)

/-- Number of occurrences of one event in a trace. -/
def countEvent (e : Event) : List Event → Nat
  | [] => 0
  | x :: t => (if x = e then 1 else 0) + countEvent e t

/-- Number of invocations of the migration function registered under
composite key `k` in a trace. -/
def invokeCount (k : GoStr) : List Event → Nat
  | [] => 0
  | Event.invoke ns name :: t => (if mkKey ns name = k then 1 else 0) + invokeCount k t
  | _ :: t => invokeCount k t

/-- Number of registrations carrying composite key `k`. -/
def countKey (k : GoStr) : List MigrationItem → Nat
  | [] => 0
  | j :: t => (if mkKey j.Namespace j.Name = k then 1 else 0) + countKey k t

/-- The rows of a table that belong to composite key `k`. -/
def recordsForKey (k : GoStr) : List MigrationLog → List MigrationLog
  | [] => []
  | r :: t =>
    if mkKey r.Namespace r.Migration = k then r :: recordsForKey k t
    else recordsForKey k t

/-- An item the execution pass walks past without aborting: either its key
is already in the applied set, or its function succeeds and so does the
subsequent `MarkMigrationApplied`. -/
def passes (storage : MigrationStorage) (now : GoStr) (S : List GoStr)
    (j : MigrationItem) : Prop :=
  mkKey j.Namespace j.Name ∈ S ∨
    ((j.Func (startCtx j now)).2 = none ∧
      storage.MarkMigrationApplied j.Namespace j.Name = none)

/-- The trace produced by a list of items that all pass the execution
pass. -/
def passTrace (S : List GoStr) : List MigrationItem → List Event
  | [] => []
  | j :: t =>
    (if mkKey j.Namespace j.Name ∈ S then []
     else [Event.invoke j.Namespace j.Name, Event.markApplied j.Namespace j.Name])
      ++ passTrace S t

end Aira

namespace Aira

/-! ### String lemmas -/

theorem startsWith_append (p r : GoStr) : startsWith (p ++ r) p = true := by
  induction p with
  | nil => cases r <;> rfl
  | cons c t ih => simp [startsWith, ih]

theorem containsStr_of_startsWith (s p : GoStr) (h : startsWith s p = true) :
    containsStr s p = true := by
  cases s with
  | nil => simpa [containsStr] using h
  | cons c t => simp [containsStr, h]

theorem containsStr_append_left (a s p : GoStr) (h : containsStr s p = true) :
    containsStr (a ++ s) p = true := by
  induction a with
  | nil => simpa using h
  | cons c t ih => simp [containsStr, ih]

theorem containsStr_mid (a p b : GoStr) : containsStr (a ++ (p ++ b)) p = true :=
  containsStr_append_left a _ p
    (containsStr_of_startsWith _ p (startsWith_append p b))

theorem joinNL_cons (s : GoStr) (rest : List GoStr) :
    ∃ b, joinNL (s :: rest) = s ++ b := by
  cases rest with
  | nil => exact ⟨[], by simp [joinNL]⟩
  | cons x t => exact ⟨'\n' :: joinNL (x :: t), rfl⟩

theorem splitColon_no_colon (l : GoStr) (h : ':' ∉ l) : splitColon l = [l] := by
  induction l with
  | nil => rfl
  | cons c t ih =>
    have hc : ¬ c = ':' := fun hc => h (hc ▸ List.mem_cons_self c t)
    have ht : ':' ∉ t := fun hm => h (List.mem_cons_of_mem c hm)
    simp [splitColon, hc, ih ht]

theorem splitColon_mkKey (ns nm : GoStr) (h1 : ':' ∉ ns) (h2 : ':' ∉ nm) :
    splitColon (mkKey ns nm) = [ns, nm] := by
  induction ns with
  | nil =>
    simp [mkKey, splitColon, splitColon_no_colon nm h2]
  | cons c t ih =>
    have hc : ¬ c = ':' := fun hc => h1 (hc ▸ List.mem_cons_self c t)
    have ht : ':' ∉ t := fun hm => h1 (List.mem_cons_of_mem c hm)
    have := ih ht
    simp only [mkKey] at this ⊢
    simp [splitColon, hc, this]

theorem mem_initNamespaces (keys : List GoStr) (ns nm : GoStr)
    (hk : mkKey ns nm ∈ keys) (h1 : ':' ∉ ns) (h2 : ':' ∉ nm) :
    ns ∈ initNamespaces keys := by
  apply List.mem_filterMap.mpr
  exact ⟨mkKey ns nm, hk, by rw [splitColon_mkKey ns nm h1 h2]⟩

/-! ### Success-key lemmas -/

theorem successKeys_append (a b : List MigrationLog) :
    successKeys (a ++ b) = successKeys a ++ successKeys b := by
  simp [successKeys, List.filter_append]

theorem mem_successKeys_of (r : MigrationLog) (recs : List MigrationLog)
    (hr : r ∈ recs) (hs : r.Success = true) :
    mkKey r.Namespace r.Migration ∈ successKeys recs := by
  apply List.mem_map_of_mem
  exact List.mem_filter.mpr ⟨hr, by simp [hs]⟩

/-! ### Counting lemmas -/

theorem countEvent_append (e : Event) (a b : List Event) :
    countEvent e (a ++ b) = countEvent e a + countEvent e b := by
  induction a with
  | nil => simp [countEvent]
  | cons x t ih => simp [countEvent, ih]; omega

theorem invokeCount_append (k : GoStr) (a b : List Event) :
    invokeCount k (a ++ b) = invokeCount k a + invokeCount k b := by
  induction a with
  | nil => simp [invokeCount]
  | cons x t ih => cases x <;> simp [invokeCount, ih] <;> omega

theorem invokeCount_eq_zero (k : GoStr) (tr : List Event)
    (h : ∀ ns nm, Event.invoke ns nm ∉ tr) : invokeCount k tr = 0 := by
  induction tr with
  | nil => rfl
  | cons x t ih =>
    have ht : ∀ ns nm, Event.invoke ns nm ∉ t := fun ns nm hm =>
      h ns nm (List.mem_cons_of_mem x hm)
    cases x with
    | invoke ns nm => exact absurd (List.mem_cons_self _ _) (h ns nm)
    | _ => simpa [invokeCount] using ih ht

theorem countEvent_eq_zero (e : Event) (tr : List Event) (h : e ∉ tr) :
    countEvent e tr = 0 := by
  induction tr with
  | nil => rfl
  | cons x t ih =>
    have hx : ¬ x = e := fun hx => h (hx ▸ List.mem_cons_self x t)
    have ht : e ∉ t := fun hm => h (List.mem_cons_of_mem x hm)
    simp [countEvent, hx, ih ht]

theorem recordsForKey_append (k : GoStr) (a b : List MigrationLog) :
    recordsForKey k (a ++ b) = recordsForKey k a ++ recordsForKey k b := by
  induction a with
  | nil => rfl
  | cons r t ih =>
    by_cases hr : mkKey r.Namespace r.Migration = k <;>
      simp [recordsForKey, hr, ih]

theorem recordsForKey_nil (k : GoStr) (recs : List MigrationLog)
    (h : ∀ r ∈ recs, mkKey r.Namespace r.Migration ≠ k) :
    recordsForKey k recs = [] := by
  induction recs with
  | nil => rfl
  | cons r t ih =>
    simp [recordsForKey, h r (List.mem_cons_self r t),
      ih fun x hx => h x (List.mem_cons_of_mem r hx)]

end Aira

namespace Aira

/-! ### Bootstrap-pass lemmas -/

theorem bootstrapPass_events (storage : MigrationStorage) (items : List MigrationItem) :
    ∀ (S N : List GoStr) (e : Event), e ∈ (bootstrapPass storage items S N).1 →
      ∃ ns nm, e = Event.markSkipped ns nm := by
  induction items with
  | nil => intro S N e he; simp [bootstrapPass] at he
  | cons item rest ih =>
    intro S N e he
    by_cases hc : item.Namespace ∈ N ∨ mkKey item.Namespace item.Name ∈ S
    · rw [bootstrapPass, if_pos hc] at he
      exact ih S N e he
    · rw [bootstrapPass, if_neg hc] at he
      cases hms : storage.MarkMigrationSkipped item.Namespace item.Name with
      | some err =>
        rw [hms] at he
        simp at he
        exact ⟨item.Namespace, item.Name, he⟩
      | none =>
        rw [hms] at he
        simp only [List.mem_cons] at he
        rcases he with he | he
        · exact ⟨item.Namespace, item.Name, he⟩
        · exact ih _ _ e he

theorem bootstrapPass_sub (storage : MigrationStorage) (items : List MigrationItem) :
    ∀ (S N S' N' : List GoStr) (tr : List Event),
      bootstrapPass storage items S N = (tr, Except.ok (S', N')) →
      ∀ k, k ∈ S → k ∈ S' := by
  induction items with
  | nil =>
    intro S N S' N' tr h k hk
    simp only [bootstrapPass, Prod.mk.injEq, Except.ok.injEq] at h
    exact h.2.1 ▸ hk
  | cons item rest ih =>
    intro S N S' N' tr h k hk
    by_cases hc : item.Namespace ∈ N ∨ mkKey item.Namespace item.Name ∈ S
    · rw [bootstrapPass, if_pos hc] at h
      exact ih S N S' N' tr h k hk
    · rw [bootstrapPass, if_neg hc] at h
      cases hms : storage.MarkMigrationSkipped item.Namespace item.Name with
      | some err => rw [hms] at h; simp at h
      | none =>
        rw [hms] at h
        rcases hr : bootstrapPass storage rest
          (mkKey item.Namespace item.Name :: S) (item.Namespace :: N) with ⟨tr2, res2⟩
        rw [hr] at h
        simp only [Prod.mk.injEq] at h
        rw [h.2] at hr
        exact ih _ _ S' N' tr2 hr k (List.mem_cons_of_mem _ hk)

theorem bootstrapPass_mem_ok (storage : MigrationStorage) (items : List MigrationItem) :
    ∀ (S N S' N' : List GoStr) (tr : List Event),
      bootstrapPass storage items S N = (tr, Except.ok (S', N')) →
      ∀ k, k ∈ S' → k ∈ S ∨ ∃ ns nm, Event.markSkipped ns nm ∈ tr ∧ mkKey ns nm = k := by
  induction items with
  | nil =>
    intro S N S' N' tr h k hk
    simp only [bootstrapPass, Prod.mk.injEq, Except.ok.injEq] at h
    exact Or.inl (h.2.1 ▸ hk)
  | cons item rest ih =>
    intro S N S' N' tr h k hk
    by_cases hc : item.Namespace ∈ N ∨ mkKey item.Namespace item.Name ∈ S
    · rw [bootstrapPass, if_pos hc] at h
      exact ih S N S' N' tr h k hk
    · rw [bootstrapPass, if_neg hc] at h
      cases hms : storage.MarkMigrationSkipped item.Namespace item.Name with
      | some err => rw [hms] at h; simp at h
      | none =>
        rw [hms] at h
        rcases hr : bootstrapPass storage rest
          (mkKey item.Namespace item.Name :: S) (item.Namespace :: N) with ⟨tr2, res2⟩
        rw [hr] at h
        simp only [Prod.mk.injEq] at h
        rw [h.2] at hr
        rcases ih _ _ S' N' tr2 hr k hk with hin | ⟨ns, nm, hmem, hkey⟩
        · rcases List.mem_cons.mp hin with heq | hin
          · refine Or.inr ⟨item.Namespace, item.Name, ?_, heq.symm⟩
            rw [← h.1]; exact List.mem_cons_self _ _
          · exact Or.inl hin
        · refine Or.inr ⟨ns, nm, ?_, hkey⟩
          rw [← h.1]; exact List.mem_cons_of_mem _ hmem

theorem bootstrapPass_skip_mem (storage : MigrationStorage) (items : List MigrationItem) :
    ∀ (S N S' N' : List GoStr) (tr : List Event),
      bootstrapPass storage items S N = (tr, Except.ok (S', N')) →
      ∀ ns nm, Event.markSkipped ns nm ∈ tr → mkKey ns nm ∈ S' := by
  induction items with
  | nil =>
    intro S N S' N' tr h ns nm hmem
    simp only [bootstrapPass, Prod.mk.injEq] at h
    rw [← h.1] at hmem
    simp at hmem
  | cons item rest ih =>
    intro S N S' N' tr h ns nm hmem
    by_cases hc : item.Namespace ∈ N ∨ mkKey item.Namespace item.Name ∈ S
    · rw [bootstrapPass, if_pos hc] at h
      exact ih S N S' N' tr h ns nm hmem
    · rw [bootstrapPass, if_neg hc] at h
      cases hms : storage.MarkMigrationSkipped item.Namespace item.Name with
      | some err => rw [hms] at h; simp at h
      | none =>
        rw [hms] at h
        rcases hr : bootstrapPass storage rest
          (mkKey item.Namespace item.Name :: S) (item.Namespace :: N) with ⟨tr2, res2⟩
        rw [hr] at h
        simp only [Prod.mk.injEq] at h
        rw [h.2] at hr
        rw [← h.1] at hmem
        rcases List.mem_cons.mp hmem with heq | hmem2
        · have : mkKey ns nm ∈ mkKey item.Namespace item.Name :: S := by
            cases heq; exact List.mem_cons_self _ _
          exact bootstrapPass_sub storage rest _ _ S' N' tr2 hr _ this
        · exact ih _ _ S' N' tr2 hr ns nm hmem2

theorem bootstrapPass_noop (storage : MigrationStorage) (items : List MigrationItem) :
    ∀ (S N : List GoStr), (∀ item ∈ items, mkKey item.Namespace item.Name ∈ S) →
      bootstrapPass storage items S N = ([], Except.ok (S, N)) := by
  induction items with
  | nil => intro S N _; rfl
  | cons item rest ih =>
    intro S N h
    have hc : item.Namespace ∈ N ∨ mkKey item.Namespace item.Name ∈ S :=
      Or.inr (h item (List.mem_cons_self _ _))
    rw [bootstrapPass, if_pos hc]
    exact ih S N fun x hx => h x (List.mem_cons_of_mem _ hx)

theorem bootstrapPass_total (storage : MigrationStorage) (items : List MigrationItem)
    (hs : ∀ ns nm, storage.MarkMigrationSkipped ns nm = none) :
    ∀ (S N : List GoStr), ∃ tr S' N',
      bootstrapPass storage items S N = (tr, Except.ok (S', N')) := by
  induction items with
  | nil => intro S N; exact ⟨[], S, N, rfl⟩
  | cons item rest ih =>
    intro S N
    by_cases hc : item.Namespace ∈ N ∨ mkKey item.Namespace item.Name ∈ S
    · rw [bootstrapPass, if_pos hc]; exact ih S N
    · rw [bootstrapPass, if_neg hc, hs item.Namespace item.Name]
      rcases ih (mkKey item.Namespace item.Name :: S) (item.Namespace :: N) with
        ⟨tr, S', N', hr⟩
      exact ⟨_, S', N', by rw [hr]⟩

end Aira

namespace Aira

/-! ### Execution-pass lemmas -/

theorem executePass_cons_mem (storage : MigrationStorage) (now : GoStr)
    (item : MigrationItem) (rest : List MigrationItem) (S : List GoStr)
    (hc : mkKey item.Namespace item.Name ∈ S) :
    executePass storage now (item :: rest) S = executePass storage now rest S := by
  rw [executePass, if_pos hc]

theorem executePass_cons_fail (storage : MigrationStorage) (now : GoStr)
    (item : MigrationItem) (rest : List MigrationItem) (S : List GoStr)
    (lines : List GoStr) (e : GoStr)
    (hc : mkKey item.Namespace item.Name ∉ S)
    (hf : item.Func (startCtx item now) = (lines, some e)) :
    executePass storage now (item :: rest) S =
      ([Event.invoke item.Namespace item.Name,
        Event.markFailed item.Namespace item.Name
          (failMsg e (joinNL ((startCtx item now).logStrings ++ lines)))],
       some ("migration ".toList ++ mkKey item.Namespace item.Name
          ++ " failed: ".toList ++ e)) := by
  rw [executePass, if_neg hc, hf]
  rfl

theorem executePass_cons_applyErr (storage : MigrationStorage) (now : GoStr)
    (item : MigrationItem) (rest : List MigrationItem) (S : List GoStr)
    (lines : List GoStr) (e : GoStr)
    (hc : mkKey item.Namespace item.Name ∉ S)
    (hf : item.Func (startCtx item now) = (lines, none))
    (hma : storage.MarkMigrationApplied item.Namespace item.Name = some e) :
    executePass storage now (item :: rest) S =
      ([Event.invoke item.Namespace item.Name,
        Event.markApplied item.Namespace item.Name],
       some ("failed to mark migration ".toList ++ mkKey item.Namespace item.Name
          ++ " as applied: ".toList ++ e)) := by
  rw [executePass, if_neg hc, hf]
  simp [hma]

theorem executePass_cons_ok (storage : MigrationStorage) (now : GoStr)
    (item : MigrationItem) (rest : List MigrationItem) (S : List GoStr)
    (lines : List GoStr)
    (hc : mkKey item.Namespace item.Name ∉ S)
    (hf : item.Func (startCtx item now) = (lines, none))
    (hma : storage.MarkMigrationApplied item.Namespace item.Name = none) :
    executePass storage now (item :: rest) S =
      (Event.invoke item.Namespace item.Name
        :: Event.markApplied item.Namespace item.Name
        :: (executePass storage now rest S).1,
       (executePass storage now rest S).2) := by
  rw [executePass, if_neg hc, hf]
  simp [hma]

theorem executePass_no_unlock (storage : MigrationStorage) (now : GoStr)
    (items : List MigrationItem) :
    ∀ (S : List GoStr) (e : Event), e ∈ (executePass storage now items S).1 →
      e ≠ Event.unlock ∧ e ≠ Event.getApplied := by
  induction items with
  | nil => intro S e he; simp [executePass] at he
  | cons item rest ih =>
    intro S e he
    by_cases hc : mkKey item.Namespace item.Name ∈ S
    · rw [executePass_cons_mem storage now item rest S hc] at he
      exact ih S e he
    · rcases hf : item.Func (startCtx item now) with ⟨lines, ferr⟩
      cases ferr with
      | some err =>
        rw [executePass_cons_fail storage now item rest S lines err hc hf] at he
        simp only [List.mem_cons] at he
        rcases he with he | he | he
        · subst he; exact ⟨fun h => Event.noConfusion h, fun h => Event.noConfusion h⟩
        · subst he; exact ⟨fun h => Event.noConfusion h, fun h => Event.noConfusion h⟩
        · simp at he
      | none =>
        cases hma : storage.MarkMigrationApplied item.Namespace item.Name with
        | some err =>
          rw [executePass_cons_applyErr storage now item rest S lines err hc hf hma] at he
          simp only [List.mem_cons] at he
          rcases he with he | he | he
          · subst he; exact ⟨fun h => Event.noConfusion h, fun h => Event.noConfusion h⟩
          · subst he; exact ⟨fun h => Event.noConfusion h, fun h => Event.noConfusion h⟩
          · simp at he
        | none =>
          rw [executePass_cons_ok storage now item rest S lines hc hf hma] at he
          simp only [List.mem_cons] at he
          rcases he with he | he | he
          · subst he; exact ⟨fun h => Event.noConfusion h, fun h => Event.noConfusion h⟩
          · subst he; exact ⟨fun h => Event.noConfusion h, fun h => Event.noConfusion h⟩
          · exact ih S e he

theorem executePass_skip_all (storage : MigrationStorage) (now : GoStr)
    (items : List MigrationItem) :
    ∀ (S : List GoStr), (∀ item ∈ items, mkKey item.Namespace item.Name ∈ S) →
      executePass storage now items S = ([], none) := by
  induction items with
  | nil => intro S _; rfl
  | cons item rest ih =>
    intro S h
    rw [executePass_cons_mem storage now item rest S (h item (List.mem_cons_self _ _))]
    exact ih S fun x hx => h x (List.mem_cons_of_mem _ hx)

theorem executePass_applied_not_invoked (storage : MigrationStorage) (now : GoStr)
    (items : List MigrationItem) :
    ∀ (S : List GoStr) (k : GoStr), k ∈ S →
      invokeCount k (executePass storage now items S).1 = 0 := by
  induction items with
  | nil => intro S k _; simp [executePass, invokeCount]
  | cons item rest ih =>
    intro S k hk
    by_cases hc : mkKey item.Namespace item.Name ∈ S
    · rw [executePass_cons_mem storage now item rest S hc]
      exact ih S k hk
    · have hne : ¬ mkKey item.Namespace item.Name = k := fun heq => hc (heq ▸ hk)
      rcases hf : item.Func (startCtx item now) with ⟨lines, ferr⟩
      cases ferr with
      | some err =>
        rw [executePass_cons_fail storage now item rest S lines err hc hf]
        simp [invokeCount, hne]
      | none =>
        cases hma : storage.MarkMigrationApplied item.Namespace item.Name with
        | some err =>
          rw [executePass_cons_applyErr storage now item rest S lines err hc hf hma]
          simp [invokeCount, hne]
        | none =>
          rw [executePass_cons_ok storage now item rest S lines hc hf hma]
          simp [invokeCount, hne, ih S k hk]

theorem executePass_invoke_le (storage : MigrationStorage) (now : GoStr)
    (items : List MigrationItem) :
    ∀ (S : List GoStr) (k : GoStr),
      invokeCount k (executePass storage now items S).1 ≤ countKey k items := by
  induction items with
  | nil => intro S k; simp [executePass, invokeCount, countKey]
  | cons item rest ih =>
    intro S k
    by_cases hc : mkKey item.Namespace item.Name ∈ S
    · rw [executePass_cons_mem storage now item rest S hc]
      calc invokeCount k (executePass storage now rest S).1 ≤ countKey k rest := ih S k
        _ ≤ countKey k (item :: rest) := by rw [countKey]; omega
    · rcases hf : item.Func (startCtx item now) with ⟨lines, ferr⟩
      cases ferr with
      | some err =>
        rw [executePass_cons_fail storage now item rest S lines err hc hf]
        simp only [invokeCount, countKey]
        split <;> omega
      | none =>
        cases hma : storage.MarkMigrationApplied item.Namespace item.Name with
        | some err =>
          rw [executePass_cons_applyErr storage now item rest S lines err hc hf hma]
          simp only [invokeCount, countKey]
          split <;> omega
        | none =>
          rw [executePass_cons_ok storage now item rest S lines hc hf hma]
          have := ih S k
          simp only [invokeCount, countKey]
          split <;> omega

theorem executePass_none_covered (storage : MigrationStorage) (now : GoStr)
    (items : List MigrationItem) :
    ∀ (S : List GoStr), (executePass storage now items S).2 = none →
      ∀ item ∈ items, mkKey item.Namespace item.Name ∈ S ∨
        Event.markApplied item.Namespace item.Name ∈ (executePass storage now items S).1 := by
  induction items with
  | nil => intro S _ item hmem; simp at hmem
  | cons item rest ih =>
    intro S hres j hj
    by_cases hc : mkKey item.Namespace item.Name ∈ S
    · rw [executePass_cons_mem storage now item rest S hc] at hres ⊢
      rcases List.mem_cons.mp hj with heq | hj2
      · exact Or.inl (heq ▸ hc)
      · exact ih S hres j hj2
    · rcases hf : item.Func (startCtx item now) with ⟨lines, ferr⟩
      cases ferr with
      | some err =>
        rw [executePass_cons_fail storage now item rest S lines err hc hf] at hres
        simp at hres
      | none =>
        cases hma : storage.MarkMigrationApplied item.Namespace item.Name with
        | some err =>
          rw [executePass_cons_applyErr storage now item rest S lines err hc hf hma] at hres
          simp at hres
        | none =>
          rw [executePass_cons_ok storage now item rest S lines hc hf hma] at hres ⊢
          rcases List.mem_cons.mp hj with heq | hj2
          · subst heq
            exact Or.inr (List.mem_cons_of_mem _ (List.mem_cons_self _ _))
          · rcases ih S hres j hj2 with hin | hin
            · exact Or.inl hin
            · refine Or.inr ?_
              simp only [List.mem_cons]
              exact Or.inr (Or.inr hin)

end Aira

namespace Aira

/-! ### Pass-through decomposition -/

theorem executePass_append (storage : MigrationStorage) (now : GoStr)
    (pre : List MigrationItem) :
    ∀ (rest : List MigrationItem) (S : List GoStr),
      (∀ j ∈ pre, passes storage now S j) →
      executePass storage now (pre ++ rest) S =
        (passTrace S pre ++ (executePass storage now rest S).1,
         (executePass storage now rest S).2) := by
  induction pre with
  | nil => intro rest S _; simp [passTrace]
  | cons j t ih =>
    intro rest S h
    have ht : ∀ x ∈ t, passes storage now S x := fun x hx => h x (List.mem_cons_of_mem _ hx)
    by_cases hmem : mkKey j.Namespace j.Name ∈ S
    · rw [List.cons_append, executePass_cons_mem storage now j (t ++ rest) S hmem,
        ih rest S ht]
      simp [passTrace, hmem]
    · have hj2 := (h j (List.mem_cons_self _ _)).resolve_left hmem
      rcases hf2 : j.Func (startCtx j now) with ⟨lines, ferr⟩
      have hfn : ferr = none := by
        have := hj2.1
        rw [hf2] at this
        exact this
      subst hfn
      rw [List.cons_append, executePass_cons_ok storage now j (t ++ rest) S lines hmem hf2 hj2.2,
        ih rest S ht]
      simp [passTrace, hmem]

theorem passTrace_events (S : List GoStr) (pre : List MigrationItem) :
    ∀ e ∈ passTrace S pre, ∃ j, j ∈ pre ∧
      (e = Event.invoke j.Namespace j.Name ∨ e = Event.markApplied j.Namespace j.Name) := by
  induction pre with
  | nil => intro e he; simp [passTrace] at he
  | cons j t ih =>
    intro e he
    rw [passTrace] at he
    rcases List.mem_append.mp he with he | he
    · by_cases hmem : mkKey j.Namespace j.Name ∈ S
      · rw [if_pos hmem] at he; simp at he
      · rw [if_neg hmem] at he
        simp only [List.mem_cons, List.mem_singleton] at he
        rcases he with he | he | he
        · exact ⟨j, List.mem_cons_self _ _, Or.inl he⟩
        · exact ⟨j, List.mem_cons_self _ _, Or.inr he⟩
        · simp at he
    · rcases ih e he with ⟨x, hx, hor⟩
      exact ⟨x, List.mem_cons_of_mem _ hx, hor⟩

/-! ### Run-level unfold lemmas -/

theorem runBody_getErr (storage : MigrationStorage) (migrations : List MigrationItem)
    (now : GoStr) (e : GoStr) (h : storage.GetAppliedMigrations = Except.error e) :
    runBody storage migrations now =
      ([Event.getApplied], some ("failed to get applied migrations: ".toList ++ e)) := by
  rw [runBody, h]

theorem runBody_bootErr (storage : MigrationStorage) (migrations : List MigrationItem)
    (now : GoStr) (l : List GoStr) (btr : List Event) (e : GoStr)
    (h1 : storage.GetAppliedMigrations = Except.ok l)
    (h2 : bootstrapPass storage migrations l (initNamespaces l) = (btr, Except.error e)) :
    runBody storage migrations now = (Event.getApplied :: btr, some e) := by
  rw [runBody, h1]
  dsimp only
  rw [h2]

theorem runBody_ok (storage : MigrationStorage) (migrations : List MigrationItem)
    (now : GoStr) (l S N : List GoStr) (btr : List Event)
    (h1 : storage.GetAppliedMigrations = Except.ok l)
    (h2 : bootstrapPass storage migrations l (initNamespaces l) = (btr, Except.ok (S, N))) :
    runBody storage migrations now =
      (Event.getApplied :: btr ++ (executePass storage now migrations S).1,
       (executePass storage now migrations S).2) := by
  rw [runBody, h1]
  dsimp only
  rw [h2]

theorem RunMigrations_locked (storage : MigrationStorage)
    (migrations : List MigrationItem) (now : GoStr) :
    RunMigrations (true, none) storage migrations now =
      ⟨(runBody storage migrations now).2,
       (runBody storage migrations now).1 ++ [Event.unlock]⟩ := rfl

theorem runBody_no_unlock (storage : MigrationStorage) (migrations : List MigrationItem)
    (now : GoStr) : ∀ e ∈ (runBody storage migrations now).1, e ≠ Event.unlock := by
  intro e he
  cases hga : storage.GetAppliedMigrations with
  | error err =>
    rw [runBody_getErr storage migrations now err hga] at he
    simp at he
    subst he
    exact fun h => Event.noConfusion h
  | ok l =>
    rcases hbp : bootstrapPass storage migrations l (initNamespaces l) with ⟨btr, res⟩
    cases res with
    | error err =>
      rw [runBody_bootErr storage migrations now l btr err hga hbp] at he
      rcases List.mem_cons.mp he with he | he
      · subst he; exact fun h => Event.noConfusion h
      · rcases bootstrapPass_events storage migrations l (initNamespaces l) e (by rw [hbp]; exact he)
          with ⟨ns, nm, hns⟩
        subst hns; exact fun h => Event.noConfusion h
    | ok sn =>
      rcases sn with ⟨S, N⟩
      rw [runBody_ok storage migrations now l S N btr hga hbp] at he
      rcases List.mem_cons.mp he with he | he
      · subst he; exact fun h => Event.noConfusion h
      · rcases List.mem_append.mp he with he | he
        · rcases bootstrapPass_events storage migrations l (initNamespaces l) e (by rw [hbp]; exact he)
            with ⟨ns, nm, hns⟩
          subst hns; exact fun h => Event.noConfusion h
        · exact (executePass_no_unlock storage now migrations S e he).1

/-- Claim C8: if lock acquisition returns `acquired = false` with no error,
the run aborts returning exactly the error `"migration is already running"`
with an empty event trace: no storage operation, no migration function
invocation, and no unlock call. -/
theorem lock_contention_aborts_clean (storage : MigrationStorage)
    (migrations : List MigrationItem) (now : GoStr) :
    RunMigrations (false, none) storage migrations now =
      ⟨some "migration is already running".toList, []⟩ := rfl

/-- Claim C9: every run that acquires the lock performs exactly one unlock,
and it is the final action of the run, whatever the storage backend and the
registered migration functions do. -/
theorem unlock_exactly_once (storage : MigrationStorage)
    (migrations : List MigrationItem) (now : GoStr) :
    countEvent Event.unlock (RunMigrations (true, none) storage migrations now).events = 1 ∧
    (RunMigrations (true, none) storage migrations now).events.getLast? =
      some Event.unlock := by
  rw [RunMigrations_locked]
  constructor
  · rw [countEvent_append]
    have h0 : countEvent Event.unlock (runBody storage migrations now).1 = 0 :=
      countEvent_eq_zero _ _ fun hmem =>
        runBody_no_unlock storage migrations now Event.unlock hmem rfl
    rw [h0]
    rfl
  · exact List.getLast?_concat _

end Aira

namespace Aira

/-- Claim C1 (behaviour at the failing input): with an empty history and two
registered items in the fresh namespace `tenantX`, the run marks only `m1`
as skipped; the bootstrap pass then sees `tenantX` as having records, so
`m2` is not skipped — its function is invoked and it is marked applied,
contrary to the stated property that both items are skipped and neither
function runs. -/
theorem bootstrap_fresh_namespace_run_eval :
    RunMigrations (true, none) (dbStorage [])
      [⟨"tenantX".toList, "m1".toList, fun _ => ([], none)⟩,
       ⟨"tenantX".toList, "m2".toList, fun _ => ([], none)⟩] "T".toList =
      ⟨none,
       [Event.getApplied,
        Event.markSkipped "tenantX".toList "m1".toList,
        Event.invoke "tenantX".toList "m2".toList,
        Event.markApplied "tenantX".toList "m2".toList,
        Event.unlock]⟩ := by decide

/-- Claim C2 counterexample: the applied set is never extended during the
execution pass, so a composite key that is pending at the start of that
pass and is registered twice has its function invoked twice in one run —
refuting "at most once per key". -/
theorem duplicate_key_invoked_twice :
    invokeCount (mkKey "app".toList "m".toList)
      (RunMigrations (true, none)
        (dbStorage [⟨"m0".toList, "app".toList, [], [], true⟩])
        [⟨"app".toList, "m".toList, fun _ => ([], none)⟩,
         ⟨"app".toList, "m".toList, fun _ => ([], none)⟩] "T".toList).events = 2 ∧
    ¬ invokeCount (mkKey "app".toList "m".toList)
      (RunMigrations (true, none)
        (dbStorage [⟨"m0".toList, "app".toList, [], [], true⟩])
        [⟨"app".toList, "m".toList, fun _ => ([], none)⟩,
         ⟨"app".toList, "m".toList, fun _ => ([], none)⟩] "T".toList).events ≤ 1 := by
  decide

/-- Claim C2 (amended): one run invokes the function of a composite key at
most once per registration of that key (an already-applied or
bootstrap-skipped key is skipped by every registration, but a key still
pending at the start of the execution pass is invoked once by each of its
registrations). -/
theorem invoke_at_most_once_per_registration (storage : MigrationStorage)
    (migs : List MigrationItem) (now k : GoStr) :
    invokeCount k (RunMigrations (true, none) storage migs now).events ≤
      countKey k migs := by
  cases hga : storage.GetAppliedMigrations with
  | error e =>
    rw [RunMigrations_locked, runBody_getErr storage migs now e hga]
    simp [invokeCount]
  | ok l =>
    rcases hbp : bootstrapPass storage migs l (initNamespaces l) with ⟨btr, res⟩
    have hbtr : invokeCount k btr = 0 := by
      apply invokeCount_eq_zero
      intro ns nm hmem
      rcases bootstrapPass_events storage migs l (initNamespaces l) (Event.invoke ns nm)
        (by rw [hbp]; exact hmem) with ⟨ns2, nm2, heq⟩
      exact Event.noConfusion heq
    cases res with
    | error e =>
      rw [RunMigrations_locked, runBody_bootErr storage migs now l btr e hga hbp]
      simp [invokeCount, invokeCount_append, hbtr]
    | ok sn =>
      rcases sn with ⟨S, N⟩
      rw [RunMigrations_locked, runBody_ok storage migs now l S N btr hga hbp]
      have hle := executePass_invoke_le storage now migs S k
      have heq : invokeCount k
          ((Event.getApplied :: btr ++ (executePass storage now migs S).1)
            ++ [Event.unlock])
          = invokeCount k (executePass storage now migs S).1 := by
        simp [invokeCount, invokeCount_append, hbtr]
      exact le_of_le_of_eq (le_of_eq heq) rfl |>.trans hle

/-- Claim C7 counterexample: the namespaces-with-records set misses an
applied key whose namespace contains a colon, because the key then splits
into more than two parts. -/
theorem namespace_with_colon_not_recorded :
    ¬ (∀ (recs : List MigrationLog) (r : MigrationLog), r ∈ recs →
        r.Success = true → r.Namespace ∈ initNamespaces (successKeys recs)) := by
  intro h
  have := h [⟨"m".toList, "a:b".toList, [], [], true⟩]
    ⟨"m".toList, "a:b".toList, [], [], true⟩ (List.mem_singleton_self _) rfl
  exact absurd this (by decide)

/-- Claim C7 (amended): for every record of a loaded history whose
namespace and name are colon-free, the bootstrap pass treats that record's
namespace as having history records. -/
theorem namespace_recorded_of_no_colon (recs : List MigrationLog) (r : MigrationLog)
    (h1 : r ∈ recs) (h2 : r.Success = true)
    (h3 : ':' ∉ r.Namespace) (h4 : ':' ∉ r.Migration) :
    r.Namespace ∈ initNamespaces (successKeys recs) :=
  mem_initNamespaces (successKeys recs) r.Namespace r.Migration
    (mem_successKeys_of r recs h1 h2) h3 h4

theorem namespace_recorded_of_no_colon_witness :
    ("app".toList : GoStr) ∈ initNamespaces
      (successKeys [⟨"m1".toList, "app".toList, [], [], true⟩]) :=
  namespace_recorded_of_no_colon [⟨"m1".toList, "app".toList, [], [], true⟩]
    ⟨"m1".toList, "app".toList, [], [], true⟩
    (List.mem_singleton_self _) rfl (by decide) (by decide)

/-- Claim C5: a composite key having at least one successful record in the
loaded history is never invoked during the run, regardless of any failed
records that may also exist for it. -/
theorem applied_key_never_invoked (recs : List MigrationLog)
    (migs : List MigrationItem) (now : GoStr) (r : MigrationLog)
    (h1 : r ∈ recs) (h2 : r.Success = true) :
    invokeCount (mkKey r.Namespace r.Migration)
      (RunMigrations (true, none) (dbStorage recs) migs now).events = 0 := by
  have hk : mkKey r.Namespace r.Migration ∈ successKeys recs :=
    mem_successKeys_of r recs h1 h2
  rcases bootstrapPass_total (dbStorage recs) migs (fun _ _ => rfl) (successKeys recs)
    (initNamespaces (successKeys recs)) with ⟨btr, S, N, hbp⟩
  rw [RunMigrations_locked,
    runBody_ok (dbStorage recs) migs now (successKeys recs) S N btr rfl hbp]
  have hS : mkKey r.Namespace r.Migration ∈ S :=
    bootstrapPass_sub (dbStorage recs) migs (successKeys recs)
      (initNamespaces (successKeys recs)) S N btr hbp _ hk
  have hbtr : invokeCount (mkKey r.Namespace r.Migration) btr = 0 := by
    apply invokeCount_eq_zero
    intro ns nm hmem
    rcases bootstrapPass_events (dbStorage recs) migs (successKeys recs)
      (initNamespaces (successKeys recs)) (Event.invoke ns nm)
      (by rw [hbp]; exact hmem) with ⟨ns2, nm2, heq⟩
    exact Event.noConfusion heq
  have hetr := executePass_applied_not_invoked (dbStorage recs) now migs S _ hS
  simp [invokeCount, invokeCount_append, hbtr, hetr]

theorem applied_key_never_invoked_witness :
    invokeCount (mkKey "app".toList "m1".toList)
      (RunMigrations (true, none)
        (dbStorage [⟨"m1".toList, "app".toList, [], "boom".toList, true⟩])
        [⟨"app".toList, "m1".toList, fun _ => ([], none)⟩] "T".toList).events = 0 :=
  applied_key_never_invoked [⟨"m1".toList, "app".toList, [], "boom".toList, true⟩]
    [⟨"app".toList, "m1".toList, fun _ => ([], none)⟩] "T".toList
    ⟨"m1".toList, "app".toList, [], "boom".toList, true⟩
    (List.mem_singleton_self _) rfl

end Aira

namespace Aira

/-- Claim C3: for a registration sequence `[A, B, C]` where the run reaches
`B` (the bootstrap pass succeeds, `A` is applied or executes cleanly) and
`B`'s function returns an error: `MarkMigrationFailed` is called for `B`
with the function's error plus the accumulated log text, `C`'s function is
never invoked, and the run returns the wrapped migration error. -/
theorem fail_fast_aborts_run (storage : MigrationStorage) (A B C : MigrationItem)
    (now : GoStr) (l S N : List GoStr) (btr : List Event)
    (lines : List GoStr) (e : GoStr)
    (hga : storage.GetAppliedMigrations = Except.ok l)
    (hbp : bootstrapPass storage [A, B, C] l (initNamespaces l) =
      (btr, Except.ok (S, N)))
    (hA : passes storage now S A)
    (hB : mkKey B.Namespace B.Name ∉ S)
    (hBf : B.Func (startCtx B now) = (lines, some e))
    (hCA : mkKey C.Namespace C.Name ≠ mkKey A.Namespace A.Name)
    (hCB : mkKey C.Namespace C.Name ≠ mkKey B.Namespace B.Name) :
    (RunMigrations (true, none) storage [A, B, C] now).error =
      some ("migration ".toList ++ mkKey B.Namespace B.Name
        ++ " failed: ".toList ++ e) ∧
    Event.markFailed B.Namespace B.Name
        (failMsg e (joinNL ((startCtx B now).logStrings ++ lines)))
      ∈ (RunMigrations (true, none) storage [A, B, C] now).events ∧
    invokeCount (mkKey C.Namespace C.Name)
      (RunMigrations (true, none) storage [A, B, C] now).events = 0 := by
  have hexec : executePass storage now [A, B, C] S =
      (passTrace S [A] ++ [Event.invoke B.Namespace B.Name,
        Event.markFailed B.Namespace B.Name
          (failMsg e (joinNL ((startCtx B now).logStrings ++ lines)))],
       some ("migration ".toList ++ mkKey B.Namespace B.Name
          ++ " failed: ".toList ++ e)) := by
    have h1 : executePass storage now ([A] ++ [B, C]) S =
        (passTrace S [A] ++ (executePass storage now [B, C] S).1,
         (executePass storage now [B, C] S).2) :=
      executePass_append storage now [A] [B, C] S (by
        intro j hj
        have hja : j = A := by simpa using hj
        subst hja
        exact hA)
    rw [executePass_cons_fail storage now B [C] S lines e hB hBf] at h1
    exact h1
  have hrun : RunMigrations (true, none) storage [A, B, C] now =
      ⟨some ("migration ".toList ++ mkKey B.Namespace B.Name
          ++ " failed: ".toList ++ e),
       (Event.getApplied :: btr ++ (passTrace S [A]
          ++ [Event.invoke B.Namespace B.Name,
              Event.markFailed B.Namespace B.Name
                (failMsg e (joinNL ((startCtx B now).logStrings ++ lines)))]))
         ++ [Event.unlock]⟩ := by
    rw [RunMigrations_locked, runBody_ok storage [A, B, C] now l S N btr hga hbp,
      hexec]
  rw [hrun]
  refine ⟨rfl, by simp, ?_⟩
  have hbtr : invokeCount (mkKey C.Namespace C.Name) btr = 0 := by
    apply invokeCount_eq_zero
    intro ns nm hmem
    rcases bootstrapPass_events storage [A, B, C] l (initNamespaces l)
      (Event.invoke ns nm) (by rw [hbp]; exact hmem) with ⟨ns2, nm2, heq⟩
    exact Event.noConfusion heq
  have hpt : invokeCount (mkKey C.Namespace C.Name) (passTrace S [A]) = 0 := by
    by_cases hm : mkKey A.Namespace A.Name ∈ S
    · simp [passTrace, hm, invokeCount]
    · simp [passTrace, hm, invokeCount, Ne.symm hCA]
  simp [invokeCount, invokeCount_append, hbtr, hpt, Ne.symm hCB]

/-- Claim C10: when a migration function fails and the subsequent
`MarkMigrationFailed` call itself returns an error, that storage error is
discarded: the call is still made (it appears in the trace) and the run
returns the migration's wrapped failure error, not the storage error. -/
theorem markFailed_error_discarded (storage : MigrationStorage)
    (pre post : List MigrationItem) (item : MigrationItem)
    (now : GoStr) (l S N : List GoStr) (btr : List Event)
    (lines : List GoStr) (e sErr : GoStr)
    (hga : storage.GetAppliedMigrations = Except.ok l)
    (hbp : bootstrapPass storage (pre ++ item :: post) l (initNamespaces l) =
      (btr, Except.ok (S, N)))
    (hpre : ∀ j ∈ pre, passes storage now S j)
    (hitem : mkKey item.Namespace item.Name ∉ S)
    (hf : item.Func (startCtx item now) = (lines, some e))
    (hsf : storage.MarkMigrationFailed item.Namespace item.Name
        (failMsg e (joinNL ((startCtx item now).logStrings ++ lines))) = some sErr) :
    (RunMigrations (true, none) storage (pre ++ item :: post) now).error =
      some ("migration ".toList ++ mkKey item.Namespace item.Name
        ++ " failed: ".toList ++ e) ∧
    Event.markFailed item.Namespace item.Name
        (failMsg e (joinNL ((startCtx item now).logStrings ++ lines)))
      ∈ (RunMigrations (true, none) storage (pre ++ item :: post) now).events := by
  have hexec : executePass storage now (pre ++ item :: post) S =
      (passTrace S pre ++ [Event.invoke item.Namespace item.Name,
        Event.markFailed item.Namespace item.Name
          (failMsg e (joinNL ((startCtx item now).logStrings ++ lines)))],
       some ("migration ".toList ++ mkKey item.Namespace item.Name
          ++ " failed: ".toList ++ e)) := by
    have h1 := executePass_append storage now pre (item :: post) S hpre
    rw [executePass_cons_fail storage now item post S lines e hitem hf] at h1
    exact h1
  rw [RunMigrations_locked,
    runBody_ok storage (pre ++ item :: post) now l S N btr hga hbp, hexec]
  exact ⟨rfl, by simp⟩

/-- Oracle and items used by the witnesses of the failure-path claims. -/
def wSt : MigrationStorage :=
  ⟨Except.ok [mkKey "app".toList "m0".toList],
   fun _ _ => none, fun _ _ _ => none, fun _ _ => none⟩

def wA : MigrationItem := ⟨"app".toList, "a".toList, fun _ => ([], none)⟩

def wB : MigrationItem := ⟨"app".toList, "b".toList, fun _ => ([], some "boom".toList)⟩

def wC : MigrationItem := ⟨"app".toList, "c".toList, fun _ => ([], none)⟩

theorem fail_fast_aborts_run_witness :
    (RunMigrations (true, none) wSt [wA, wB, wC] "T".toList).error =
      some ("migration ".toList ++ mkKey wB.Namespace wB.Name
        ++ " failed: ".toList ++ "boom".toList) ∧
    Event.markFailed wB.Namespace wB.Name
        (failMsg "boom".toList (joinNL ((startCtx wB "T".toList).logStrings ++ [])))
      ∈ (RunMigrations (true, none) wSt [wA, wB, wC] "T".toList).events ∧
    invokeCount (mkKey wC.Namespace wC.Name)
      (RunMigrations (true, none) wSt [wA, wB, wC] "T".toList).events = 0 :=
  fail_fast_aborts_run wSt wA wB wC "T".toList
    [mkKey "app".toList "m0".toList] [mkKey "app".toList "m0".toList]
    ["app".toList] [] [] "boom".toList
    rfl rfl (Or.inr ⟨rfl, rfl⟩) (by decide) rfl (by decide) (by decide)

/-- Oracle whose `MarkMigrationFailed` always fails, for the C10 witness. -/
def wStFail : MigrationStorage :=
  ⟨Except.ok [mkKey "app".toList "m0".toList],
   fun _ _ => none, fun _ _ _ => some "db down".toList, fun _ _ => none⟩

theorem markFailed_error_discarded_witness :
    (RunMigrations (true, none) wStFail ([] ++ wB :: []) "T".toList).error =
      some ("migration ".toList ++ mkKey wB.Namespace wB.Name
        ++ " failed: ".toList ++ "boom".toList) ∧
    Event.markFailed wB.Namespace wB.Name
        (failMsg "boom".toList (joinNL ((startCtx wB "T".toList).logStrings ++ [])))
      ∈ (RunMigrations (true, none) wStFail ([] ++ wB :: []) "T".toList).events :=
  markFailed_error_discarded wStFail [] [] wB "T".toList
    [mkKey "app".toList "m0".toList] [mkKey "app".toList "m0".toList]
    ["app".toList] [] [] "boom".toList "db down".toList
    rfl rfl (fun j hj => absurd hj (List.not_mem_nil j)) (by decide) rfl rfl

end Aira

namespace Aira

/-! ### Record characterisation -/

theorem bootstrapPass_record_keys (storage : MigrationStorage)
    (items : List MigrationItem) (l N0 S N : List GoStr) (btr : List Event)
    (now : GoStr)
    (hbp : bootstrapPass storage items l N0 = (btr, Except.ok (S, N))) :
    ∀ rec ∈ btr.filterMap (recordOfEvent now),
      mkKey rec.Namespace rec.Migration ∈ S ∧ rec.Success = true := by
  intro rec hrec
  rcases List.mem_filterMap.mp hrec with ⟨ev, hev, hro⟩
  rcases bootstrapPass_events storage items l N0 ev (by rw [hbp]; exact hev)
    with ⟨ns, nm, heq⟩
  subst heq
  simp only [recordOfEvent, Option.some.injEq] at hro
  rcases hro with rfl
  exact ⟨bootstrapPass_skip_mem storage items l N0 S N btr hbp ns nm hev, rfl⟩

theorem passTrace_record_keys (S : List GoStr) (pre : List MigrationItem)
    (now : GoStr) :
    ∀ rec ∈ (passTrace S pre).filterMap (recordOfEvent now),
      ∃ j ∈ pre, rec.Namespace = j.Namespace ∧ rec.Migration = j.Name ∧
        rec.Success = true := by
  intro rec hrec
  rcases List.mem_filterMap.mp hrec with ⟨ev, hev, hro⟩
  rcases passTrace_events S pre ev hev with ⟨j, hj, hor | hor⟩
  · subst hor
    simp [recordOfEvent] at hro
  · subst hor
    simp only [recordOfEvent, Option.some.injEq] at hro
    rcases hro with rfl
    exact ⟨j, hj, rfl, rfl, rfl⟩

/-- Claim C6 (amended): when the run reaches an item whose function fails
and no other registration carries the same composite key, exactly one new
record is written for that key in that run, with `success = false` and a
logs text containing the start marker and the error text (the completion
marker is only logged after success and is absent); the key is still
absent from the applied set afterwards. -/
theorem failed_migration_single_record (recs : List MigrationLog)
    (pre post : List MigrationItem) (item : MigrationItem) (now : GoStr)
    (S N : List GoStr) (btr : List Event) (lines : List GoStr) (e : GoStr)
    (hbp : bootstrapPass (dbStorage recs) (pre ++ item :: post) (successKeys recs)
        (initNamespaces (successKeys recs)) = (btr, Except.ok (S, N)))
    (hpre : ∀ j ∈ pre, passes (dbStorage recs) now S j)
    (hitem : mkKey item.Namespace item.Name ∉ S)
    (hf : item.Func (startCtx item now) = (lines, some e))
    (huniq : ∀ j ∈ pre, mkKey j.Namespace j.Name ≠ mkKey item.Namespace item.Name) :
    recordsForKey (mkKey item.Namespace item.Name)
        ((RunMigrations (true, none) (dbStorage recs)
            (pre ++ item :: post) now).events.filterMap (recordOfEvent now)) =
      [⟨item.Name, item.Namespace, now,
        failMsg e (joinNL ((startCtx item now).logStrings ++ lines)), false⟩] ∧
    containsStr (failMsg e (joinNL ((startCtx item now).logStrings ++ lines)))
        (startMarker item.Namespace item.Name now) = true ∧
    containsStr (failMsg e (joinNL ((startCtx item now).logStrings ++ lines)))
        e = true ∧
    mkKey item.Namespace item.Name ∉ successKeys
        (applyEvents now recs
          (RunMigrations (true, none) (dbStorage recs)
            (pre ++ item :: post) now).events) := by
  have hexec : executePass (dbStorage recs) now (pre ++ item :: post) S =
      (passTrace S pre ++ [Event.invoke item.Namespace item.Name,
        Event.markFailed item.Namespace item.Name
          (failMsg e (joinNL ((startCtx item now).logStrings ++ lines)))],
       some ("migration ".toList ++ mkKey item.Namespace item.Name
          ++ " failed: ".toList ++ e)) := by
    have h1 := executePass_append (dbStorage recs) now pre (item :: post) S hpre
    rw [executePass_cons_fail (dbStorage recs) now item post S lines e hitem hf] at h1
    exact h1
  have hrun : RunMigrations (true, none) (dbStorage recs) (pre ++ item :: post) now =
      ⟨some ("migration ".toList ++ mkKey item.Namespace item.Name
          ++ " failed: ".toList ++ e),
       (Event.getApplied :: btr ++ (passTrace S pre
          ++ [Event.invoke item.Namespace item.Name,
              Event.markFailed item.Namespace item.Name
                (failMsg e (joinNL ((startCtx item now).logStrings ++ lines)))]))
         ++ [Event.unlock]⟩ := by
    rw [RunMigrations_locked,
      runBody_ok (dbStorage recs) (pre ++ item :: post) now (successKeys recs) S N btr
        rfl hbp, hexec]
  have hsplit : (RunMigrations (true, none) (dbStorage recs)
        (pre ++ item :: post) now).events.filterMap (recordOfEvent now) =
      btr.filterMap (recordOfEvent now)
        ++ ((passTrace S pre).filterMap (recordOfEvent now)
          ++ [⟨item.Name, item.Namespace, now,
              failMsg e (joinNL ((startCtx item now).logStrings ++ lines)), false⟩]) := by
    rw [hrun]
    simp [List.filterMap_append, List.filterMap_cons, recordOfEvent]
  have hbtrrec : recordsForKey (mkKey item.Namespace item.Name)
      (btr.filterMap (recordOfEvent now)) = [] := by
    apply recordsForKey_nil
    intro rec hrec hkeq
    exact hitem (hkeq ▸
      (bootstrapPass_record_keys (dbStorage recs) (pre ++ item :: post)
        (successKeys recs) (initNamespaces (successKeys recs)) S N btr now hbp
        rec hrec).1)
  have hptrec : recordsForKey (mkKey item.Namespace item.Name)
      ((passTrace S pre).filterMap (recordOfEvent now)) = [] := by
    apply recordsForKey_nil
    intro rec hrec hkeq
    rcases passTrace_record_keys S pre now rec hrec with ⟨j, hj, hns, hnm, _⟩
    apply huniq j hj
    rw [← hns, ← hnm]
    exact hkeq
  refine ⟨?_, ?_, ?_, ?_⟩
  · rw [hsplit, recordsForKey_append, recordsForKey_append, hbtrrec, hptrec]
    simp [recordsForKey]
  · have hlog : (startCtx item now).logStrings ++ lines =
        startMarker item.Namespace item.Name now :: lines := by
      simp [startCtx, Migration.Log]
    obtain ⟨b, hb⟩ := joinNL_cons (startMarker item.Namespace item.Name now) lines
    rw [hlog, hb, failMsg]
    have hmid := containsStr_mid
      ("Migration failed: ".toList ++ e ++ "\nLogs:\n".toList)
      (startMarker item.Namespace item.Name now) b
    simpa [List.append_assoc] using hmid
  · rw [failMsg]
    have hmid := containsStr_mid "Migration failed: ".toList e
      ("\nLogs:\n".toList ++ joinNL ((startCtx item now).logStrings ++ lines))
    simpa [List.append_assoc] using hmid
  · intro hmem
    rw [applyEvents, successKeys_append] at hmem
    rcases List.mem_append.mp hmem with hmem | hmem
    · exact hitem (bootstrapPass_sub (dbStorage recs) (pre ++ item :: post)
        (successKeys recs) (initNamespaces (successKeys recs)) S N btr hbp _ hmem)
    · rcases List.mem_map.mp hmem with ⟨rec, hrec, hkeq⟩
      have hrecf := List.mem_filter.mp hrec
      have hsucc : rec.Success = true := by simpa using hrecf.2
      have hrec1 := hrecf.1
      rw [hsplit] at hrec1
      rcases List.mem_append.mp hrec1 with hr | hr
      · exact hitem (hkeq ▸
          (bootstrapPass_record_keys (dbStorage recs) (pre ++ item :: post)
            (successKeys recs) (initNamespaces (successKeys recs)) S N btr now hbp
            rec hr).1)
      · rcases List.mem_append.mp hr with hr | hr
        · rcases passTrace_record_keys S pre now rec hr with ⟨j, hj, hns, hnm, _⟩
          apply huniq j hj
          rw [← hns, ← hnm]
          exact hkeq
        · have : rec = ⟨item.Name, item.Namespace, now,
              failMsg e (joinNL ((startCtx item now).logStrings ++ lines)), false⟩ := by
            simpa using hr
          rw [this] at hsucc
          exact Bool.noConfusion hsucc

/-- Claim C6 counterexample: at a concrete failing migration, the single
record written for the key carries `success = false` and a logs text that
contains the start marker and the error text but does NOT contain the
completion marker, refuting the claimed presence of the completion
marker. -/
theorem failed_record_no_completion_marker :
    recordsForKey (mkKey "app".toList "m1".toList)
        ((RunMigrations (true, none)
            (dbStorage [⟨"m0".toList, "app".toList, [], [], true⟩])
            [⟨"app".toList, "m1".toList, fun _ => ([], some "boom".toList)⟩]
            "T".toList).events.filterMap (recordOfEvent "T".toList)) =
      [⟨"m1".toList, "app".toList, "T".toList,
        "Migration failed: boom\nLogs:\nStarting migration: app:m1 at T".toList,
        false⟩] ∧
    containsStr
      "Migration failed: boom\nLogs:\nStarting migration: app:m1 at T".toList
      (completionMarker "app".toList "m1".toList "T".toList) = false ∧
    containsStr
      "Migration failed: boom\nLogs:\nStarting migration: app:m1 at T".toList
      (startMarker "app".toList "m1".toList "T".toList) = true := by
  decide

theorem failed_migration_single_record_witness :
    recordsForKey (mkKey wB.Namespace wB.Name)
        ((RunMigrations (true, none)
            (dbStorage [⟨"m0".toList, "app".toList, [], [], true⟩])
            ([] ++ wB :: []) "T".toList).events.filterMap
          (recordOfEvent "T".toList)) =
      [⟨wB.Name, wB.Namespace, "T".toList,
        failMsg "boom".toList
          (joinNL ((startCtx wB "T".toList).logStrings ++ [])), false⟩] ∧
    containsStr (failMsg "boom".toList
        (joinNL ((startCtx wB "T".toList).logStrings ++ [])))
      (startMarker wB.Namespace wB.Name "T".toList) = true ∧
    containsStr (failMsg "boom".toList
        (joinNL ((startCtx wB "T".toList).logStrings ++ [])))
      "boom".toList = true ∧
    mkKey wB.Namespace wB.Name ∉ successKeys
        (applyEvents "T".toList [⟨"m0".toList, "app".toList, [], [], true⟩]
          (RunMigrations (true, none)
            (dbStorage [⟨"m0".toList, "app".toList, [], [], true⟩])
            ([] ++ wB :: []) "T".toList).events) :=
  failed_migration_single_record [⟨"m0".toList, "app".toList, [], [], true⟩]
    [] [] wB "T".toList
    (successKeys [⟨"m0".toList, "app".toList, [], [], true⟩])
    (initNamespaces (successKeys [⟨"m0".toList, "app".toList, [], [], true⟩]))
    [] [] "boom".toList
    rfl (fun j hj => absurd hj (List.not_mem_nil j)) (by decide) rfl
    (fun j hj => absurd hj (List.not_mem_nil j))

end Aira

namespace Aira

/-- After a run over the default database backend returns no error, every
registered composite key has a successful record in the resulting table
state (it was already applied, was skip-marked by the bootstrap pass, or
was executed and marked applied). -/
theorem run_success_covered (recs : List MigrationLog) (migs : List MigrationItem)
    (now : GoStr)
    (h : (RunMigrations (true, none) (dbStorage recs) migs now).error = none) :
    ∀ item ∈ migs, mkKey item.Namespace item.Name ∈
      successKeys (applyEvents now recs
        (RunMigrations (true, none) (dbStorage recs) migs now).events) := by
  rcases bootstrapPass_total (dbStorage recs) migs (fun _ _ => rfl) (successKeys recs)
    (initNamespaces (successKeys recs)) with ⟨btr, S, N, hbp⟩
  have hrb := runBody_ok (dbStorage recs) migs now (successKeys recs) S N btr rfl hbp
  rw [RunMigrations_locked, hrb] at h ⊢
  intro item hitem
  have hres : (executePass (dbStorage recs) now migs S).2 = none := h
  rcases executePass_none_covered (dbStorage recs) now migs S hres item hitem
    with hS | hma
  · rcases bootstrapPass_mem_ok (dbStorage recs) migs (successKeys recs)
      (initNamespaces (successKeys recs)) S N btr hbp _ hS
      with hin | ⟨ns, nm, hmem, hkeq⟩
    · rw [applyEvents, successKeys_append]
      exact List.mem_append_left _ hin
    · rw [applyEvents, successKeys_append]
      apply List.mem_append_right
      rw [← hkeq]
      have hrec : (⟨nm, ns, now, "skip".toList, true⟩ : MigrationLog) ∈
          ((Event.getApplied :: btr ++ (executePass (dbStorage recs) now migs S).1)
            ++ [Event.unlock]).filterMap (recordOfEvent now) := by
        apply List.mem_filterMap.mpr
        refine ⟨Event.markSkipped ns nm, ?_, rfl⟩
        exact List.mem_append_left _
          (List.mem_cons_of_mem _ (List.mem_append_left _ hmem))
      exact mem_successKeys_of _ _ hrec rfl
  · rw [applyEvents, successKeys_append]
    apply List.mem_append_right
    have hrec : (⟨item.Name, item.Namespace, now, [], true⟩ : MigrationLog) ∈
        ((Event.getApplied :: btr ++ (executePass (dbStorage recs) now migs S).1)
          ++ [Event.unlock]).filterMap (recordOfEvent now) := by
      apply List.mem_filterMap.mpr
      refine ⟨Event.markApplied item.Namespace item.Name, ?_, rfl⟩
      exact List.mem_append_left _
        (List.mem_cons_of_mem _ (List.mem_append_right _ hma))
    exact mem_successKeys_of _ _ hrec rfl

/-- Claim C4: immediately re-running the orchestrator after a completed
run over the default database backend, with the same registrations and no
external change to the table, loads the history and releases the lock but
invokes no migration function and writes no record of any kind. -/
theorem second_run_no_effects (recs : List MigrationLog) (migs : List MigrationItem)
    (now now2 : GoStr)
    (h : (RunMigrations (true, none) (dbStorage recs) migs now).error = none) :
    RunMigrations (true, none)
      (dbStorage (applyEvents now recs
        (RunMigrations (true, none) (dbStorage recs) migs now).events)) migs now2 =
      ⟨none, [Event.getApplied, Event.unlock]⟩ := by
  have hcov := run_success_covered recs migs now h
  have hbp2 := bootstrapPass_noop
    (dbStorage (applyEvents now recs
      (RunMigrations (true, none) (dbStorage recs) migs now).events)) migs
    (successKeys (applyEvents now recs
      (RunMigrations (true, none) (dbStorage recs) migs now).events))
    (initNamespaces (successKeys (applyEvents now recs
      (RunMigrations (true, none) (dbStorage recs) migs now).events))) hcov
  rw [RunMigrations_locked,
    runBody_ok _ migs now2 _ _ _ [] rfl hbp2,
    executePass_skip_all _ now2 migs _ hcov]
  rfl

theorem second_run_no_effects_witness :
    RunMigrations (true, none)
      (dbStorage (applyEvents "T".toList []
        (RunMigrations (true, none) (dbStorage []) [wA] "T".toList).events))
      [wA] "U".toList =
      ⟨none, [Event.getApplied, Event.unlock]⟩ :=
  second_run_no_effects [] [wA] "T".toList "U".toList (by decide)

end Aira
